import Mathlib

/-!
Verification of the reride trick-detection and posture-analysis core.

The Lean definitions below are a shallow embedding of the Python code in
src/ai/trick_classification/predictor.py and src/ai/pose_estimation/extractor.py.
Floating-point numbers are modelled as real numbers; Python's decimal
round(x, n) (banker's rounding) is modelled as half-even rounding of the
exact real value at n decimal digits; numpy's arctan2(y, x) is modelled as
the principal argument of the complex number x + y*i; list.sort (a stable
sort by key) is modelled by a stable insertion sort on the key.
-/

namespace Reride

/-- One of the 33 tracked joints of a frame: normalized planar position,
depth offset and visibility confidence (a row of the (33, 4) landmark
array of extractor.py). -/
structure Landmark where
  x : ℝ
  y : ℝ
  z : ℝ
  visibility : ℝ

/-- Single-frame pose data; mirrors the PoseFrame dataclass of extractor.py. -/
structure PoseFrame where
  frame_idx : ℕ
  timestamp_ms : ℝ
  landmarks : Fin 33 → Landmark
  center_of_mass : ℝ × ℝ × ℝ
  board_angle : ℝ
  knee_angle_left : ℝ
  knee_angle_right : ℝ
  is_airborne : Bool

/-- Mirrors the TrickPrediction dataclass of predictor.py. -/
structure TrickPrediction where
  trick_type : String
  confidence : ℝ
  start_frame : ℕ
  end_frame : ℕ
  start_time_ms : ℝ
  end_time_ms : ℝ

/-- Mirrors the AnalysisScores dataclass of predictor.py. -/
structure AnalysisScores where
  overall_score : ℝ
  difficulty_score : ℝ
  stability_score : ℝ
  feedback : List String

/-- Conversion from radians to degrees, as numpy.degrees. -/
noncomputable def degrees (r : ℝ) : ℝ := r * (180 / Real.pi)

/-- numpy.arctan2(y, x): the principal argument of x + y*i, in (-pi, pi]. -/
noncomputable def atan2 (y x : ℝ) : ℝ := Complex.arg (x + y * Complex.I)

/-- Round a real number to the nearest integer, ties to even
(the rounding used by Python's builtin round). -/
noncomputable def roundHalfEven (x : ℝ) : ℤ :=
  if x - ⌊x⌋ < 1 / 2 then ⌊x⌋
  else if 1 / 2 < x - ⌊x⌋ then ⌊x⌋ + 1
  else if 2 ∣ ⌊x⌋ then ⌊x⌋ else ⌊x⌋ + 1

/-- Python's round(x, 2) on the exact real value. -/
noncomputable def pyround2 (x : ℝ) : ℝ := (roundHalfEven (x * 100) : ℝ) / 100

/-- Python's round(x, 1) on the exact real value. -/
noncomputable def pyround1 (x : ℝ) : ℝ := (roundHalfEven (x * 10) : ℝ) / 10

/-- Python's max over a list, 0 on the empty list (never used on it). -/
noncomputable def list_max : List ℝ → ℝ
  | [] => 0
  | x :: xs => xs.foldl max x

/-- Python's min over a list, 0 on the empty list (never used on it). -/
noncomputable def list_min : List ℝ → ℝ
  | [] => 0
  | x :: xs => xs.foldl min x

/-- Arithmetic mean of a list of reals, as numpy.mean. -/
noncomputable def mean_list (xs : List ℝ) : ℝ := xs.sum / xs.length

/-- Population standard deviation, as numpy.std (ddof = 0). -/
noncomputable def std_list (xs : List ℝ) : ℝ :=
  Real.sqrt (((xs.map fun x => (x - mean_list xs) ^ 2).sum) / xs.length)

/-- The feedback strings of predictor.py (Korean, copied verbatim). -/
def msg_no_pose : String := "포즈를 감지할 수 없습니다"

/-- Knee feedback when the average knee angle exceeds 170 degrees. -/
def msg_knee_high : String := "무릎을 더 굽혀 낮은 자세를 유지하면 안정성이 향상됩니다"

/-- Knee feedback when the average knee angle is below 120 degrees. -/
def msg_knee_low : String := "무릎이 과도하게 굽혀져 있습니다. 적당히 펴서 균형을 잡으세요"

/-- Knee feedback for the intermediate range. -/
def msg_knee_ok : String := "적절한 무릎 굽힘 각도를 유지하고 있습니다"

/-- Edge-control feedback when the board-angle variability exceeds 15. -/
def msg_edge : String := "보드 각도 변화가 큽니다. 에지 컨트롤 연습이 필요합니다"

/-- Summary line for overall score at least 80. -/
def msg_overall_high : String := "전반적으로 우수한 라이딩입니다!"

/-- Summary line for overall score at least 60 (but below 80). -/
def msg_overall_mid : String := "좋은 라이딩입니다. 아래 피드백을 참고하여 개선해보세요."

/-- Summary line for overall score below 60. -/
def msg_overall_low : String := "기본기를 다지는 단계입니다. 꾸준히 연습하세요!"

/-- The loop of TrickPredictor._find_airborne_segments: walks the airborne
flags with the running index and the optional start of the current run,
emitting a run when it ends (or at the end of the list) if it spans at
least 3 frames. -/
def find_segments_go : List Bool → ℕ → Option ℕ → List (ℕ × ℕ)
  | [], _, none => []
  | [], i, some s => if 3 ≤ i - s then [(s, i - 1)] else []
  | b :: l, i, none =>
      if b then find_segments_go l (i + 1) (some i)
      else find_segments_go l (i + 1) none
  | b :: l, i, some s =>
      if b then find_segments_go l (i + 1) (some s)
      else (if 3 ≤ i - s then [(s, i - 1)] else []) ++ find_segments_go l (i + 1) none

/-- TrickPredictor._find_airborne_segments. -/
def find_airborne_segments (pose_frames : List PoseFrame) : List (ℕ × ℕ) :=
  find_segments_go (pose_frames.map (·.is_airborne)) 0 none

/-- Shoulder-line angle of one frame: degrees of arctan2 over the vector
from the left shoulder (landmark 11) to the right shoulder (landmark 12),
as in TrickPredictor._classify_airborne_trick. -/
noncomputable def shoulder_angle (pf : PoseFrame) : ℝ :=
  degrees (atan2 ((pf.landmarks 12).y - (pf.landmarks 11).y)
                 ((pf.landmarks 12).x - (pf.landmarks 11).x))

/-- total_rotation of TrickPredictor._classify_airborne_trick: absolute
difference of the last and first shoulder angles, 0 for fewer than
2 frames. -/
noncomputable def total_rotation : List PoseFrame → ℝ
  | [] => 0
  | [_] => 0
  | first :: second :: rest =>
      |shoulder_angle ((second :: rest).getLast (List.cons_ne_nil _ _)) - shoulder_angle first|

/-- Normalized planar distance from a hand landmark to the midpoint of the
two foot landmarks (31 and 32), as numpy.linalg.norm in
TrickPredictor._classify_airborne_trick. -/
noncomputable def foot_center_dist (pf : PoseFrame) (hand : Fin 33) : ℝ :=
  Real.sqrt (((pf.landmarks hand).x - ((pf.landmarks 31).x + (pf.landmarks 32).x) / 2) ^ 2 +
             ((pf.landmarks hand).y - ((pf.landmarks 31).y + (pf.landmarks 32).y) / 2) ^ 2)

/-- has_grab of TrickPredictor._classify_airborne_trick: some frame of the
segment has a hand landmark (the code reads landmarks 19 and 20, labelled
LEFT_INDEX and RIGHT_INDEX) within distance 0.1 of the foot midpoint. -/
def has_grab (segment : List PoseFrame) : Prop :=
  ∃ pf ∈ segment, foot_center_dist pf 19 < 0.1 ∨ foot_center_dist pf 20 < 0.1

open Classical in
/-- TrickPredictor._classify_airborne_trick (rule-based classification of an
airborne segment). The start_idx and end_idx parameters are unused by the
source as well. -/
noncomputable def classify_airborne_trick (segment : List PoseFrame)
    (_start_idx _end_idx : ℕ) : Option TrickPrediction :=
  match segment with
  | [] => none
  | first :: rest =>
      let lastf := (first :: rest).getLast (List.cons_ne_nil _ _)
      let tr := total_rotation (first :: rest)
      let chosen : Option (String × ℝ) :=
        if has_grab (first :: rest) then some ("grab_indy", 0.6)
        else if 150 < tr then some ("jump_360", 0.5 + min 0.4 (tr / 500))
        else if 80 < tr then some ("jump_180", 0.6 + min 0.3 (tr / 300))
        else if 3 ≤ (first :: rest).length then some ("jump_straight", 0.7)
        else none
      chosen.map fun tc =>
        { trick_type := tc.1
          confidence := pyround2 tc.2
          start_frame := first.frame_idx
          end_frame := lastf.frame_idx
          start_time_ms := first.timestamp_ms
          end_time_ms := lastf.timestamp_ms }

/-- Placeholder frame used only as the (never reached) default of headD and
getLastD on windows that are known to be non-empty. -/
noncomputable def default_frame : PoseFrame :=
  { frame_idx := 0
    timestamp_ms := 0
    landmarks := fun _ => ⟨0, 0, 0, 0⟩
    center_of_mass := (0, 0, 0)
    board_angle := 0
    knee_angle_left := 0
    knee_angle_right := 0
    is_airborne := false }

/-- The window start indices of the loop in
TrickPredictor._detect_ground_tricks: Python's range(0, n - 10, 5). -/
def window_starts (n : ℕ) : List ℕ := (List.range ((n - 10 + 4) / 5)).map (· * 5)

open Classical in
/-- TrickPredictor._detect_ground_tricks: scan 10-frame windows at stride 5,
skip any window containing an airborne frame, flag windows whose
board-angle range exceeds 20 as carving. -/
noncomputable def detect_ground_tricks (pose_frames : List PoseFrame) : List TrickPrediction :=
  (window_starts pose_frames.length).filterMap fun i =>
    let window := (pose_frames.drop i).take 10
    if window.any (·.is_airborne) then none
    else
      let angles := window.map (·.board_angle)
      let angle_range := list_max angles - list_min angles
      if 20 < angle_range then
        some { trick_type := "carving"
               confidence := min 0.9 (0.5 + angle_range / 100)
               start_frame := (window.headD default_frame).frame_idx
               end_frame := (window.getLastD default_frame).frame_idx
               start_time_ms := (window.headD default_frame).timestamp_ms
               end_time_ms := (window.getLastD default_frame).timestamp_ms }
      else none

/-- Stable insertion of a prediction into a list sorted by start_frame:
the new element goes after every element with a strictly smaller key and
before every element with a greater-or-equal key. -/
def insertByStart (x : TrickPrediction) : List TrickPrediction → List TrickPrediction
  | [] => [x]
  | y :: ys =>
      if y.start_frame < x.start_frame then y :: insertByStart x ys else x :: y :: ys

/-- Python's list.sort(key = start_frame) — a stable sort by start frame —
modelled as a stable insertion sort. -/
def sortByStart : List TrickPrediction → List TrickPrediction
  | [] => []
  | x :: xs => insertByStart x (sortByStart xs)

/-- The airborne-segment part of TrickPredictor.detect_tricks: classify each
candidate segment's frame slice and keep the successful classifications. -/
noncomputable def airborne_tricks (pose_frames : List PoseFrame) : List TrickPrediction :=
  (find_airborne_segments pose_frames).filterMap fun se =>
    classify_airborne_trick ((pose_frames.drop se.1).take (se.2 + 1 - se.1)) se.1 se.2

/-- TrickPredictor.detect_tricks: empty input is a sentinel; otherwise
concatenate airborne-segment and ground-window predictions and sort by
start frame. -/
noncomputable def detect_tricks (pose_frames : List PoseFrame) : List TrickPrediction :=
  match pose_frames with
  | [] => []
  | _ :: _ => sortByStart (airborne_tricks pose_frames ++ detect_ground_tricks pose_frames)

open Classical in
/-- TrickPredictor.analyze_posture. -/
noncomputable def analyze_posture : List PoseFrame → AnalysisScores
  | [] => { overall_score := 0, difficulty_score := 0, stability_score := 0
            feedback := [msg_no_pose] }
  | pf0 :: pfs =>
      let pose_frames := pf0 :: pfs
      let com_variation := std_list (pose_frames.map fun pf => pf.center_of_mass.2.1)
      let stability0 : ℝ := max 0 (min 100 (100 - com_variation * 500))
      let avg_knee_left := mean_list (pose_frames.map (·.knee_angle_left))
      let avg_knee_right := mean_list (pose_frames.map (·.knee_angle_right))
      let avg_knee := (avg_knee_left + avg_knee_right) / 2
      let stability := if 170 < avg_knee then stability0 * 0.8 else stability0
      let knee_msg :=
        if 170 < avg_knee then msg_knee_high
        else if avg_knee < 120 then msg_knee_low
        else msg_knee_ok
      let board_variation := std_list (pose_frames.map fun pf => |pf.board_angle|)
      let airborne_ratio : ℝ := (pose_frames.countP (·.is_airborne) : ℝ) / pose_frames.length
      let difficulty := min 100 (airborne_ratio * 200 + board_variation * 2)
      let overall := stability * 0.4 + difficulty * 0.3 + min 100 (avg_knee / 1.8) * 0.3
      let summary_msg :=
        if 80 ≤ overall then msg_overall_high
        else if 60 ≤ overall then msg_overall_mid
        else msg_overall_low
      let feedback := summary_msg :: knee_msg ::
        (if 15 < board_variation then [msg_edge] else [])
      { overall_score := pyround1 overall
        difficulty_score := pyround1 difficulty
        stability_score := pyround1 stability
        feedback := feedback }

/-- The pooled left- and right-foot y samples of
PoseExtractor._estimate_ground_and_airborne (landmarks 31 and 32). -/
noncomputable def pooled_foot_ys (pose_frames : List PoseFrame) : List ℝ :=
  pose_frames.flatMap fun pf => [(pf.landmarks 31).y, (pf.landmarks 32).y]

/-- numpy.percentile(xs, 80) with the default linear interpolation:
position h = (n - 1) * 0.8 into the sorted samples, interpolating between
the two neighbouring order statistics. -/
noncomputable def percentile80 (xs : List ℝ) : ℝ :=
  let sorted := xs.mergeSort fun a b => decide (a ≤ b)
  let h : ℝ := 4 * ((xs.length : ℝ) - 1) / 5
  let lo : ℕ := (⌊h⌋).toNat
  let frac : ℝ := h - lo
  sorted.getD lo 0 + frac * (sorted.getD (lo + 1) 0 - sorted.getD lo 0)

open Classical in
/-- PoseExtractor._estimate_ground_and_airborne, modelled as a two-phase
transform: the returned list carries the recomputed airborne flags. -/
noncomputable def estimate_ground_and_airborne (pose_frames : List PoseFrame) : List PoseFrame :=
  let ground_level := percentile80 (pooled_foot_ys pose_frames)
  let airborne_threshold := ground_level - 0.05
  pose_frames.map fun pf =>
    { pf with is_airborne :=
        decide ((pf.landmarks 31).y < airborne_threshold ∧
                (pf.landmarks 32).y < airborne_threshold) }

/-- PoseExtractor._calculate_angle on three 3-d points (b is the vertex):
degrees(arccos(clip(dot(ba, bc) / (norm(ba) * norm(bc) + 1e-8), -1, 1))). -/
noncomputable def calculate_angle (a b c : ℝ × ℝ × ℝ) : ℝ :=
  let ba : ℝ × ℝ × ℝ := (a.1 - b.1, a.2.1 - b.2.1, a.2.2 - b.2.2)
  let bc : ℝ × ℝ × ℝ := (c.1 - b.1, c.2.1 - b.2.1, c.2.2 - b.2.2)
  let dotp := ba.1 * bc.1 + ba.2.1 * bc.2.1 + ba.2.2 * bc.2.2
  let na := Real.sqrt (ba.1 ^ 2 + ba.2.1 ^ 2 + ba.2.2 ^ 2)
  let nc := Real.sqrt (bc.1 ^ 2 + bc.2.1 ^ 2 + bc.2.2 ^ 2)
  let cosine := dotp / (na * nc + 1e-8)
  degrees (Real.arccos (max (-1) (min 1 cosine)))

/-- Element of a Bool list at an index, false when out of range. -/
def boolAt (l : List Bool) (i : ℕ) : Bool := l.getD i false

/-- Positions s..e form a maximal contiguous run of true flags in l:
every position in the span is true, the position left of s (if any) is
false, and the position right of e is past the end or false. -/
def maxRun (l : List Bool) (s e : ℕ) : Prop :=
  s ≤ e ∧ e < l.length ∧ (∀ j, s ≤ j → j ≤ e → boolAt l j = true) ∧
  (s = 0 ∨ boolAt l (s - 1) = false) ∧
  (e + 1 = l.length ∨ boolAt l (e + 1) = false)

/-- The same walk as find_segments_go but emitting every maximal run,
without the minimum-length filter; used to factor the correctness proof. -/
def runs_go : List Bool → ℕ → Option ℕ → List (ℕ × ℕ)
  | [], _, none => []
  | [], i, some s => [(s, i - 1)]
  | b :: l, i, none =>
      if b then runs_go l (i + 1) (some i) else runs_go l (i + 1) none
  | b :: l, i, some s =>
      if b then runs_go l (i + 1) (some s)
      else (s, i - 1) :: runs_go l (i + 1) none

/-- Standard deviation of the center-of-mass y values of a sequence
(the com_variation quantity of analyze_posture). -/
noncomputable def com_std (frames : List PoseFrame) : ℝ :=
  std_list (frames.map fun pf => pf.center_of_mass.2.1)

/-- Standard deviation of the absolute board angles of a sequence
(the board_variation quantity of analyze_posture). -/
noncomputable def board_std (frames : List PoseFrame) : ℝ :=
  std_list (frames.map fun pf => |pf.board_angle|)

/-- Average knee angle of a sequence: mean of (left + right) / 2 across
frames, computed as in analyze_posture. -/
noncomputable def avg_knee (frames : List PoseFrame) : ℝ :=
  (mean_list (frames.map (·.knee_angle_left)) +
   mean_list (frames.map (·.knee_angle_right))) / 2

/-- Fraction of frames flagged airborne (airborne_ratio of
analyze_posture). -/
noncomputable def airborne_frac (frames : List PoseFrame) : ℝ :=
  (frames.countP (·.is_airborne) : ℝ) / frames.length

/-- clamp(0, 100, x) as written in the specification. -/
noncomputable def clamp100 (x : ℝ) : ℝ := max 0 (min 100 x)

open Classical in
/-- The stability score exactly as the specification words it:
clamp(0, 100, 100 - std(com y) * 500), multiplied by 0.8 when the average
knee angle exceeds 170 degrees. -/
noncomputable def stability_spec (frames : List PoseFrame) : ℝ :=
  if 170 < avg_knee frames then clamp100 (100 - com_std frames * 500) * 0.8
  else clamp100 (100 - com_std frames * 500)

/-- The difficulty score exactly as the specification words it:
clamp(0, 100, airborne_ratio * 200 + board_angle_std * 2). -/
noncomputable def difficulty_spec (frames : List PoseFrame) : ℝ :=
  clamp100 (airborne_frac frames * 200 + board_std frames * 2)

/-- Simple concrete frame for tests: every landmark at (1/2, 1/2),
center of mass y = 1/2, knee angles 150, chosen board angle and airborne
flag. -/
noncomputable def simple_frame (idx : ℕ) (board : ℝ) (air : Bool) : PoseFrame :=
  { frame_idx := idx
    timestamp_ms := idx
    landmarks := fun _ => ⟨1 / 2, 1 / 2, 0, 0⟩
    center_of_mass := (0, 1 / 2, 0)
    board_angle := board
    knee_angle_left := 150
    knee_angle_right := 150
    is_airborne := air }

/-- Ten grounded concrete frames whose board angles span a range of 25
degrees: the flush-fitting 10-frame window the claim expects the ground
scan to examine. -/
noncomputable def ex_ten_frames : List PoseFrame :=
  [simple_frame 0 0 false, simple_frame 1 25 false, simple_frame 2 25 false,
   simple_frame 3 25 false, simple_frame 4 25 false, simple_frame 5 25 false,
   simple_frame 6 25 false, simple_frame 7 25 false, simple_frame 8 25 false,
   simple_frame 9 25 false]

/-- Five concrete frames whose airborne flags follow the pattern
false, true, true, true, false: one maximal airborne run of length 3. -/
noncomputable def ex_run_frames : List PoseFrame :=
  [simple_frame 0 0 false, simple_frame 1 0 true, simple_frame 2 0 true,
   simple_frame 3 0 true, simple_frame 4 0 false]

/-- Landmarks for a grab frame with shoulder line pointing right
(angle 0): every landmark at (1/2, 1/2) except the left shoulder. -/
noncomputable def lms_grab_a : Fin 33 → Landmark := fun i =>
  if i = 11 then ⟨4 / 10, 5 / 10, 0, 0⟩ else ⟨1 / 2, 1 / 2, 0, 0⟩

/-- Landmarks for a grab frame with shoulder line pointing left
(angle 180): every landmark at (1/2, 1/2) except the left shoulder. -/
noncomputable def lms_grab_b : Fin 33 → Landmark := fun i =>
  if i = 11 then ⟨6 / 10, 5 / 10, 0, 0⟩ else ⟨1 / 2, 1 / 2, 0, 0⟩

/-- A concrete airborne frame built from a landmark assignment. -/
noncomputable def air_frame (idx : ℕ) (lms : Fin 33 → Landmark) : PoseFrame :=
  { frame_idx := idx
    timestamp_ms := idx
    landmarks := lms
    center_of_mass := (0, 1 / 2, 0)
    board_angle := 0
    knee_angle_left := 150
    knee_angle_right := 150
    is_airborne := true }

/-- Three concrete airborne frames; the hands coincide with the foot
midpoint in every frame (a grab), and the shoulder line turns by 180
degrees from the first to the last frame. -/
noncomputable def ex_grab_frames : List PoseFrame :=
  [air_frame 0 lms_grab_a, air_frame 1 lms_grab_a, air_frame 2 lms_grab_b]

/-- Rotation angle (in radians) used by the rounding counterexample:
152.6 degrees. -/
noncomputable def theta_c : ℝ := 763 * Real.pi / 900

/-- Landmarks with shoulder line at angle 0, hands at (9/10, 9/10) and
feet at (0, 0) (so no grab is possible). -/
noncomputable def lms_rot_a : Fin 33 → Landmark := fun i =>
  if i = 11 then ⟨1 / 2, 1 / 2, 0, 0⟩
  else if i = 12 then ⟨6 / 10, 1 / 2, 0, 0⟩
  else if i = 19 ∨ i = 20 then ⟨9 / 10, 9 / 10, 0, 0⟩
  else ⟨0, 0, 0, 0⟩

/-- Landmarks with shoulder line at angle theta_c (152.6 degrees),
hands at (9/10, 9/10) and feet at (0, 0). -/
noncomputable def lms_rot_b : Fin 33 → Landmark := fun i =>
  if i = 11 then ⟨1 / 2, 1 / 2, 0, 0⟩
  else if i = 12 then ⟨1 / 2 + Real.cos theta_c / 10, 1 / 2 + Real.sin theta_c / 10, 0, 0⟩
  else if i = 19 ∨ i = 20 then ⟨9 / 10, 9 / 10, 0, 0⟩
  else ⟨0, 0, 0, 0⟩

/-- Two-frame airborne segment whose total rotation is exactly 152.6
degrees and which contains no grab. -/
noncomputable def ex_rot_segment : List PoseFrame :=
  [air_frame 5 lms_rot_a, air_frame 6 lms_rot_b]

theorem roundHalfEven_low {x : ℝ} {n : ℤ} (h1 : (n : ℝ) ≤ x) (h2 : x < n + 1 / 2) :
    roundHalfEven x = n := by
  have hf : ⌊x⌋ = n := Int.floor_eq_iff.mpr ⟨h1, by linarith⟩
  unfold roundHalfEven
  rw [hf, if_pos (by linarith)]

theorem roundHalfEven_high {x : ℝ} {n : ℤ} (h1 : (n : ℝ) + 1 / 2 < x) (h2 : x < n + 1) :
    roundHalfEven x = n + 1 := by
  have hf : ⌊x⌋ = n := Int.floor_eq_iff.mpr ⟨by linarith, by linarith⟩
  unfold roundHalfEven
  rw [hf, if_neg (by linarith), if_pos (by linarith)]

/-- Claim C7: on an empty input, detect_tricks returns the empty trick
list and analyze_posture returns all-zero scores with the single
explanatory no-person-detected feedback line; neither fails. -/
theorem claim_c7_empty_input :
    detect_tricks [] = [] ∧
    analyze_posture [] =
      { overall_score := 0, difficulty_score := 0, stability_score := 0
        feedback := [msg_no_pose] } := by
  exact ⟨rfl, rfl⟩

/-- Claim C9: the knee-angle computation is total with range [0, 180]
for every joint triple (in the real-number model no NaN exists and the
epsilon keeps the denominator positive); perpendicular vectors give
exactly 90 degrees and collinear opposite vectors give an angle in
(179, 180]. -/
theorem claim_c9_knee_angle :
    (∀ a b c : ℝ × ℝ × ℝ, 0 ≤ calculate_angle a b c ∧ calculate_angle a b c ≤ 180) ∧
    calculate_angle (1, 0, 0) (0, 0, 0) (0, 1, 0) = 90 ∧
    (179 < calculate_angle (1, 0, 0) (0, 0, 0) (-1, 0, 0) ∧
      calculate_angle (1, 0, 0) (0, 0, 0) (-1, 0, 0) ≤ 180) := by
  have hpi := Real.pi_pos
  have key : ∀ y : ℝ, 0 ≤ degrees (Real.arccos y) ∧ degrees (Real.arccos y) ≤ 180 := by
    intro y
    unfold degrees
    refine ⟨mul_nonneg (Real.arccos_nonneg _) (by positivity), ?_⟩
    calc Real.arccos y * (180 / Real.pi) ≤ Real.pi * (180 / Real.pi) :=
          mul_le_mul_of_nonneg_right (Real.arccos_le_pi y) (by positivity)
      _ = 180 := by field_simp
  have hrange : ∀ a b c : ℝ × ℝ × ℝ,
      0 ≤ calculate_angle a b c ∧ calculate_angle a b c ≤ 180 := by
    intro a b c
    exact key _
  refine ⟨hrange, ?_, ?_, (hrange _ _ _).2⟩
  · show degrees (Real.arccos _) = 90
    norm_num [Real.sqrt_one]
    unfold degrees
    field_simp
    ring
  · show (179 : ℝ) < degrees (Real.arccos _)
    norm_num [Real.sqrt_one]
    set x : ℝ := -(100000000 / 100000001) with hxdef
    have hx1 : (-1 : ℝ) ≤ x := by rw [hxdef]; norm_num
    have hx2 : x ≤ 1 := by rw [hxdef]; norm_num
    have hA0 := Real.arccos_nonneg x
    unfold degrees
    rw [show (179 : ℝ) = (179 * Real.pi / 180) * (180 / Real.pi) by field_simp]
    refine mul_lt_mul_of_pos_right ?_ (by positivity)
    by_contra hcon
    push_neg at hcon
    have hcos := Real.cos_le_cos_of_nonneg_of_le_pi hA0 (by nlinarith) hcon
    rw [Real.cos_arccos hx1 hx2] at hcos
    have heq : (179 : ℝ) * Real.pi / 180 = Real.pi - Real.pi / 180 := by ring
    rw [heq, Real.cos_pi_sub] at hcos
    have hu1 : (157 / 18000 : ℝ) < Real.pi / 360 := by linarith [Real.pi_gt_d2]
    have hu2 : Real.pi / 360 < 9 / 1000 := by linarith [Real.pi_lt_d2]
    have hupos : (0 : ℝ) < Real.pi / 360 := by linarith
    have hule : Real.pi / 360 ≤ 1 := by linarith
    have hsin := Real.sin_gt_sub_cube hupos hule
    have hcube : (Real.pi / 360) ^ 3 < (9 / 1000 : ℝ) ^ 3 :=
      pow_lt_pow_left₀ hu2 (le_of_lt hupos) (by norm_num)
    have hsin2 : (86 / 10000 : ℝ) < Real.sin (Real.pi / 360) := by nlinarith
    have hsq : (86 / 10000 : ℝ) ^ 2 < Real.sin (Real.pi / 360) ^ 2 :=
      pow_lt_pow_left₀ hsin2 (by norm_num) (by norm_num)
    have hcos180 : Real.cos (Real.pi / 180) = 1 - 2 * Real.sin (Real.pi / 360) ^ 2 := by
      have h2u : Real.pi / 180 = 2 * (Real.pi / 360) := by ring
      rw [h2u, Real.cos_two_mul]
      have := Real.sin_sq_add_cos_sq (Real.pi / 360)
      linarith
    rw [hxdef] at hcos
    rw [hcos180] at hcos
    nlinarith

theorem mem_window_starts {n i : ℕ} : i ∈ window_starts n ↔ i % 5 = 0 ∧ i + 10 < n := by
  unfold window_starts
  simp only [List.mem_map, List.mem_range]
  constructor
  · rintro ⟨k, hk, rfl⟩
    omega
  · rintro ⟨h5, hlt⟩
    exact ⟨i / 5, by omega, by omega⟩

/-- Claim C2 (amended): the ground scan examines the 10-frame windows
starting at multiples of 5 with start + 10 strictly less than the frame
count (the flush-fitting window at start = n - 10 is never examined);
windows containing an airborne frame are skipped entirely and a
surviving window whose board-angle range exceeds 20 yields exactly the
carving prediction with confidence min(0.9, 0.5 + range / 100) spanning
the window's first and last frames. -/
theorem claim_c2_ground_windows_amended (frames : List PoseFrame) (p : TrickPrediction) :
    p ∈ detect_ground_tricks frames ↔
      ∃ i, i % 5 = 0 ∧ i + 10 < frames.length ∧
        (∀ pf ∈ (frames.drop i).take 10, pf.is_airborne = false) ∧
        20 < list_max (((frames.drop i).take 10).map (·.board_angle)) -
             list_min (((frames.drop i).take 10).map (·.board_angle)) ∧
        p = { trick_type := "carving"
              confidence := min 0.9 (0.5 +
                (list_max (((frames.drop i).take 10).map (·.board_angle)) -
                 list_min (((frames.drop i).take 10).map (·.board_angle))) / 100)
              start_frame := (((frames.drop i).take 10).headD default_frame).frame_idx
              end_frame := (((frames.drop i).take 10).getLastD default_frame).frame_idx
              start_time_ms := (((frames.drop i).take 10).headD default_frame).timestamp_ms
              end_time_ms := (((frames.drop i).take 10).getLastD default_frame).timestamp_ms } := by
  unfold detect_ground_tricks
  rw [List.mem_filterMap]
  constructor
  · rintro ⟨i, hi, hf⟩
    rw [mem_window_starts] at hi
    refine ⟨i, hi.1, hi.2, ?_⟩
    dsimp only at hf
    by_cases hair : ((frames.drop i).take 10).any (·.is_airborne) = true
    · rw [if_pos hair] at hf
      exact absurd hf (by simp)
    · rw [if_neg hair] at hf
      by_cases hr : 20 < list_max (((frames.drop i).take 10).map (·.board_angle)) -
          list_min (((frames.drop i).take 10).map (·.board_angle))
      · rw [if_pos hr] at hf
        refine ⟨?_, hr, (Option.some.inj hf).symm⟩
        intro pf hpf
        rcases Bool.eq_false_or_eq_true pf.is_airborne with hb | hb
        · exact absurd (List.any_eq_true.mpr ⟨pf, hpf, hb⟩) hair
        · exact hb
      · rw [if_neg hr] at hf
        exact absurd hf (by simp)
  · rintro ⟨i, h5, hlt, hgnd, hr, rfl⟩
    refine ⟨i, mem_window_starts.mpr ⟨h5, hlt⟩, ?_⟩
    dsimp only
    have hair : ¬((frames.drop i).take 10).any (·.is_airborne) = true := by
      rw [List.any_eq_true]
      rintro ⟨pf, hpf, hb⟩
      rw [hgnd pf hpf] at hb
      exact Bool.false_ne_true hb
    rw [if_neg hair, if_pos hr]

/-- Claim C2 counterexample: a 10-frame all-grounded sequence whose
board-angle range is 25; the flush-fitting window [0..9] satisfies every
condition of the claim, yet the scan emits no prediction at all. -/
theorem claim_c2_counterexample :
    ex_ten_frames.length = 10 ∧
    (∀ pf ∈ ex_ten_frames, pf.is_airborne = false) ∧
    20 < list_max (ex_ten_frames.map (·.board_angle)) -
         list_min (ex_ten_frames.map (·.board_angle)) ∧
    detect_ground_tricks ex_ten_frames = [] := by
  refine ⟨by simp [ex_ten_frames], ?_, ?_, ?_⟩
  · intro pf hpf
    simp only [ex_ten_frames, List.mem_cons, List.not_mem_nil, or_false] at hpf
    rcases hpf with rfl | rfl | rfl | rfl | rfl | rfl | rfl | rfl | rfl | rfl <;>
      simp [simple_frame]
  · simp only [ex_ten_frames, simple_frame, List.map_cons, List.map_nil]
    norm_num [list_max, list_min, List.foldl]
  · unfold detect_ground_tricks
    have hlen : ex_ten_frames.length = 10 := by simp [ex_ten_frames]
    rw [hlen]
    have : window_starts 10 = [] := by
      unfold window_starts
      norm_num
    rw [this]
    rfl

theorem percentile80_const {xs : List ℝ} {c : ℝ} (hne : xs ≠ [])
    (hc : ∀ x ∈ xs, x = c) : percentile80 xs = c := by
  unfold percentile80
  dsimp only
  have hperm : List.Perm (xs.mergeSort fun a b => decide (a ≤ b)) xs := List.mergeSort_perm xs _
  have hlen : (xs.mergeSort fun a b => decide (a ≤ b)).length = xs.length := hperm.length_eq
  have hmem : ∀ x ∈ (xs.mergeSort fun a b => decide (a ≤ b)), x = c := fun x hx =>
    hc x (hperm.mem_iff.mp hx)
  have hm1 : 1 ≤ xs.length := List.length_pos.mpr hne
  set m := xs.length with hm
  set h : ℝ := 4 * ((m : ℝ) - 1) / 5 with hh
  have hm1R : (1 : ℝ) ≤ (m : ℝ) := by exact_mod_cast hm1
  have hh0 : 0 ≤ h := by rw [hh]; linarith
  have hhle : h ≤ (m : ℝ) - 1 := by rw [hh]; linarith
  have hfl0 : 0 ≤ ⌊h⌋ := Int.le_floor.mpr (by exact_mod_cast hh0)
  have hflle : ⌊h⌋ ≤ (m : ℤ) - 1 := by
    have : (⌊h⌋ : ℝ) ≤ (m : ℝ) - 1 := le_trans (Int.floor_le h) hhle
    exact_mod_cast this
  have hlo : (⌊h⌋).toNat < m := by omega
  have hget : (xs.mergeSort fun a b => decide (a ≤ b)).getD (⌊h⌋).toNat 0 = c := by
    rw [List.getD_eq_getElem _ _ (by rw [hlen]; exact hlo)]
    exact hmem _ (List.getElem_mem _)
  rw [hget]
  by_cases hlt : (⌊h⌋).toNat + 1 < m
  · have hget2 : (xs.mergeSort fun a b => decide (a ≤ b)).getD ((⌊h⌋).toNat + 1) 0 = c := by
      rw [List.getD_eq_getElem _ _ (by rw [hlen]; exact hlt)]
      exact hmem _ (List.getElem_mem _)
    rw [hget2]
    ring
  · have h5 : ((⌊h⌋).toNat : ℤ) = ⌊h⌋ := Int.toNat_of_nonneg hfl0
    have h7 : ⌊h⌋ = (m : ℤ) - 1 := by omega
    have h8 : ((⌊h⌋).toNat : ℝ) = (m : ℝ) - 1 := by
      have : (((⌊h⌋).toNat : ℤ) : ℝ) = (((m : ℤ) - 1 : ℤ) : ℝ) := by rw [h5, h7]
      push_cast at this
      exact this
    have h9 : ((m : ℝ) - 1) ≤ h := by
      have h10 : ((⌊h⌋ : ℤ) : ℝ) ≤ h := Int.floor_le h
      have h11 : (((m : ℤ) - 1 : ℤ) : ℝ) ≤ h := by rw [← h7]; exact h10
      push_cast at h11
      linarith
    have hfrac : h - ((⌊h⌋).toNat : ℝ) = 0 := by rw [h8]; linarith
    rw [hfrac]
    ring

/-- Claim C4: for non-empty input, ground_level is the 80th percentile of
the pooled foot y samples, the threshold is ground_level - 0.05, and a
frame is flagged airborne iff both feet are strictly below the threshold;
when every frame has both feet at y = 1/2 the percentile is 1/2 (so the
threshold is 0.45) and no frame is flagged airborne. -/
theorem claim_c4_ground_estimation (frames : List PoseFrame) (hne : frames ≠ []) :
    (∀ (i : ℕ) (pf pf' : PoseFrame), frames[i]? = some pf →
      (estimate_ground_and_airborne frames)[i]? = some pf' →
      (pf'.is_airborne = true ↔
        ((pf.landmarks 31).y < percentile80 (pooled_foot_ys frames) - 0.05 ∧
         (pf.landmarks 32).y < percentile80 (pooled_foot_ys frames) - 0.05))) ∧
    ((∀ pf ∈ frames, (pf.landmarks 31).y = 1 / 2 ∧ (pf.landmarks 32).y = 1 / 2) →
      percentile80 (pooled_foot_ys frames) = 1 / 2 ∧
      ∀ pf' ∈ estimate_ground_and_airborne frames, pf'.is_airborne = false) := by
  constructor
  · intro i pf pf' h1 h2
    unfold estimate_ground_and_airborne at h2
    dsimp only at h2
    rw [List.getElem?_map, h1] at h2
    have h3 := Option.some.inj h2
    rw [← h3]
    simp only [decide_eq_true_eq]
  · intro hall
    have hpmem : ∀ x ∈ pooled_foot_ys frames, x = 1 / 2 := by
      intro x hx
      unfold pooled_foot_ys at hx
      rw [List.mem_flatMap] at hx
      obtain ⟨pf, hpf, hx2⟩ := hx
      simp only [List.mem_cons, List.not_mem_nil, or_false] at hx2
      rcases hx2 with rfl | rfl
      · exact (hall pf hpf).1
      · exact (hall pf hpf).2
    have hpne : pooled_foot_ys frames ≠ [] := by
      obtain ⟨pf0, rest, rfl⟩ := List.exists_cons_of_ne_nil hne
      unfold pooled_foot_ys
      simp
    have hperc : percentile80 (pooled_foot_ys frames) = 1 / 2 :=
      percentile80_const hpne hpmem
    refine ⟨hperc, ?_⟩
    intro pf' hpf'
    unfold estimate_ground_and_airborne at hpf'
    dsimp only at hpf'
    rw [List.mem_map] at hpf'
    obtain ⟨pf, hpf, rfl⟩ := hpf'
    simp only [decide_eq_false_iff_not]
    rw [hperc, (hall pf hpf).1, (hall pf hpf).2]
    intro hcon
    norm_num at hcon

/-- Witness for claim C4 at a concrete one-frame input with both feet at
y = 1/2. -/
theorem claim_c4_witness :
    [simple_frame 0 0 false] ≠ [] ∧
    percentile80 (pooled_foot_ys [simple_frame 0 0 false]) = 1 / 2 ∧
    ∀ pf' ∈ estimate_ground_and_airborne [simple_frame 0 0 false], pf'.is_airborne = false := by
  have hne : [simple_frame 0 0 false] ≠ [] := by simp
  have hfeet : ∀ pf ∈ [simple_frame 0 0 false],
      (pf.landmarks 31).y = 1 / 2 ∧ (pf.landmarks 32).y = 1 / 2 := by
    intro pf hpf
    simp only [List.mem_singleton] at hpf
    subst hpf
    exact ⟨rfl, rfl⟩
  have := (claim_c4_ground_estimation [simple_frame 0 0 false] hne).2 hfeet
  exact ⟨hne, this.1, this.2⟩

theorem mem_insertByStart {x a : TrickPrediction} {l : List TrickPrediction} :
    a ∈ insertByStart x l ↔ a = x ∨ a ∈ l := by
  induction l with
  | nil => simp [insertByStart]
  | cons y ys ih =>
    unfold insertByStart
    by_cases hc : y.start_frame < x.start_frame
    · rw [if_pos hc]
      simp only [List.mem_cons, ih]
      tauto
    · rw [if_neg hc]
      simp only [List.mem_cons]

theorem mem_sortByStart {a : TrickPrediction} {l : List TrickPrediction} :
    a ∈ sortByStart l ↔ a ∈ l := by
  induction l with
  | nil => simp [sortByStart]
  | cons y ys ih =>
    unfold sortByStart
    rw [mem_insertByStart, ih, List.mem_cons]

theorem pairwise_insertByStart {x : TrickPrediction} {l : List TrickPrediction}
    (h : l.Pairwise fun a b => a.start_frame ≤ b.start_frame) :
    (insertByStart x l).Pairwise fun a b => a.start_frame ≤ b.start_frame := by
  induction l with
  | nil => simp [insertByStart]
  | cons y ys ih =>
    rw [List.pairwise_cons] at h
    obtain ⟨hy, hys⟩ := h
    unfold insertByStart
    by_cases hc : y.start_frame < x.start_frame
    · rw [if_pos hc]
      rw [List.pairwise_cons]
      refine ⟨?_, ih hys⟩
      intro a ha
      rcases mem_insertByStart.mp ha with rfl | ha
      · exact le_of_lt hc
      · exact hy a ha
    · rw [if_neg hc]
      push_neg at hc
      rw [List.pairwise_cons]
      refine ⟨?_, List.pairwise_cons.mpr ⟨hy, hys⟩⟩
      intro a ha
      rcases List.mem_cons.mp ha with rfl | ha
      · exact hc
      · exact le_trans hc (hy a ha)

theorem pairwise_sortByStart (l : List TrickPrediction) :
    (sortByStart l).Pairwise fun a b => a.start_frame ≤ b.start_frame := by
  induction l with
  | nil => simp [sortByStart]
  | cons y ys ih =>
    unfold sortByStart
    exact pairwise_insertByStart ih

theorem filter_insertByStart (k : ℕ) (x : TrickPrediction) (l : List TrickPrediction) :
    (insertByStart x l).filter (fun t => t.start_frame == k) =
      if x.start_frame = k then x :: l.filter (fun t => t.start_frame == k)
      else l.filter (fun t => t.start_frame == k) := by
  induction l with
  | nil =>
    by_cases hx : x.start_frame = k
    · rw [if_pos hx]
      simp [insertByStart, hx]
    · rw [if_neg hx]
      simp [insertByStart, hx]
  | cons y ys ih =>
    unfold insertByStart
    by_cases hc : y.start_frame < x.start_frame
    · rw [if_pos hc]
      by_cases hy : y.start_frame = k
      · have hxk : ¬ x.start_frame = k := by omega
        simp [List.filter_cons, ih, hy, hxk]
      · simp [List.filter_cons, ih, hy]
    · rw [if_neg hc]
      by_cases hx : x.start_frame = k
      · simp [List.filter_cons, hx]
      · simp [List.filter_cons, hx]

theorem filter_sortByStart (k : ℕ) (l : List TrickPrediction) :
    (sortByStart l).filter (fun t => t.start_frame == k) =
      l.filter (fun t => t.start_frame == k) := by
  induction l with
  | nil => simp [sortByStart]
  | cons y ys ih =>
    unfold sortByStart
    rw [filter_insertByStart, List.filter_cons]
    by_cases hy : y.start_frame = k
    · rw [if_pos hy, if_pos (by simp [hy]), ih]
    · rw [if_neg hy, if_neg (by simp [hy]), ih]

/-- Claim C8: the list returned by detect_tricks is sorted ascending by
start frame, and the sort is stable: for every key, the predictions with
that start frame appear in the original detection order
(airborne-segment predictions before ground-window predictions). -/
theorem claim_c8_output_ordering (frames : List PoseFrame) :
    (detect_tricks frames).Pairwise (fun a b => a.start_frame ≤ b.start_frame) ∧
    ∀ k : ℕ, (detect_tricks frames).filter (fun t => t.start_frame == k) =
      (airborne_tricks frames ++ detect_ground_tricks frames).filter
        (fun t => t.start_frame == k) := by
  match frames with
  | [] =>
    constructor
    · simp [detect_tricks]
    · intro k
      have h1 : airborne_tricks [] = [] := rfl
      have h2 : detect_ground_tricks [] = [] := rfl
      simp [detect_tricks, h1, h2]
  | pf0 :: rest =>
    constructor
    · exact pairwise_sortByStart _
    · intro k
      exact filter_sortByStart k _

theorem boolAt_cons_zero (b : Bool) (l : List Bool) : boolAt (b :: l) 0 = b := rfl

theorem boolAt_cons_succ (b : Bool) (l : List Bool) (j : ℕ) :
    boolAt (b :: l) (j + 1) = boolAt l j := rfl

theorem boolAt_block (k : ℕ) (l : List Bool) (j : ℕ) :
    boolAt (List.replicate k true ++ l) j =
      if j < k then true else boolAt l (j - k) := by
  induction k generalizing j with
  | zero => simp [boolAt]
  | succ k ih =>
    rw [List.replicate_succ]
    match j with
    | 0 => simp [boolAt_cons_zero]
    | j + 1 =>
      rw [List.cons_append, boolAt_cons_succ, ih]
      by_cases hj : j < k
      · rw [if_pos hj, if_pos (by omega)]
      · rw [if_neg hj, if_neg (by omega)]
        congr 1
        omega

theorem boolAt_replicate_true (k : ℕ) (j : ℕ) :
    boolAt (List.replicate k true) j = decide (j < k) := by
  have := boolAt_block k [] j
  rw [List.append_nil] at this
  rw [this]
  by_cases hj : j < k
  · simp [hj]
  · simp [hj, boolAt]

theorem maxRun_replicate (k s e : ℕ) :
    maxRun (List.replicate k true) s e ↔ 1 ≤ k ∧ s = 0 ∧ e = k - 1 := by
  unfold maxRun
  rw [List.length_replicate]
  constructor
  · rintro ⟨hse, hek, helem, hleft, hright⟩
    have hk1 : 1 ≤ k := by omega
    have hs0 : s = 0 := by
      rcases hleft with hs | hf
      · exact hs
      · exfalso
        have := boolAt_replicate_true k (s - 1)
        rw [hf] at this
        have : ¬ (s - 1 < k) := by
          intro hc
          rw [decide_eq_true hc] at this
          exact Bool.false_ne_true this
        omega
    have he : e = k - 1 := by
      rcases hright with h1 | hf
      · omega
      · have := boolAt_replicate_true k (e + 1)
        rw [hf] at this
        have : ¬ (e + 1 < k) := by
          intro hc
          rw [decide_eq_true hc] at this
          exact Bool.false_ne_true this
        omega
    exact ⟨hk1, hs0, he⟩
  · rintro ⟨hk1, rfl, rfl⟩
    refine ⟨by omega, by omega, ?_, Or.inl rfl, Or.inl (by omega)⟩
    intro j _ hj
    rw [boolAt_replicate_true]
    exact decide_eq_true (by omega)

theorem maxRun_block (k : ℕ) (l : List Bool) (s e : ℕ) :
    maxRun (List.replicate k true ++ List.cons false l) s e ↔
      (1 ≤ k ∧ s = 0 ∧ e = k - 1) ∨
      (∃ a b, maxRun l a b ∧ s = k + 1 + a ∧ e = k + 1 + b) := by
  have hlen : (List.replicate k true ++ List.cons false l).length = k + 1 + l.length := by
    simp
    omega
  have hat : ∀ j, boolAt (List.replicate k true ++ List.cons false l) j =
      if j < k then true else if j = k then false else boolAt l (j - k - 1) := by
    intro j
    rw [boolAt_block]
    by_cases hj : j < k
    · rw [if_pos hj, if_pos hj]
    · rw [if_neg hj, if_neg hj]
      by_cases hjk : j = k
      · rw [if_pos hjk]
        have : j - k = 0 := by omega
        rw [this, boolAt_cons_zero]
      · rw [if_neg hjk]
        obtain ⟨d, hd⟩ : ∃ d, j - k = d + 1 := ⟨j - k - 1, by omega⟩
        rw [hd, boolAt_cons_succ]
        simp
  unfold maxRun
  rw [hlen]
  constructor
  · rintro ⟨hse, he, helem, hleft, hright⟩
    by_cases hsk : s < k
    · left
      have hk1 : 1 ≤ k := by omega
      have hek : e < k := by
        by_contra hc
        push_neg at hc
        have := helem k (by omega) (by omega)
        rw [hat k, if_neg (by omega), if_pos rfl] at this
        exact Bool.false_ne_true this
      have hs0 : s = 0 := by
        rcases hleft with hs | hf
        · exact hs
        · exfalso
          rw [hat (s - 1), if_pos (by omega)] at hf
          simp at hf
      have he1 : e = k - 1 := by
        rcases hright with h1 | hf
        · omega
        · by_contra hc
          rw [hat (e + 1), if_pos (by omega)] at hf
          simp at hf
      exact ⟨hk1, hs0, he1⟩
    · right
      push_neg at hsk
      have hsk1 : k + 1 ≤ s := by
        rcases Nat.eq_or_lt_of_le hsk with heq | hlt
        · exfalso
          have := helem k (by omega) (by omega)
          rw [hat k, if_neg (by omega), if_pos rfl] at this
          exact Bool.false_ne_true this
        · omega
      refine ⟨s - k - 1, e - k - 1, ⟨by omega, by omega, ?_, ?_, ?_⟩, by omega, by omega⟩
      · intro j h1 h2
        have := helem (k + 1 + j) (by omega) (by omega)
        rw [hat (k + 1 + j), if_neg (by omega), if_neg (by omega)] at this
        have harith : k + 1 + j - k - 1 = j := by omega
        rwa [harith] at this
      · by_cases hs1 : s = k + 1
        · left
          omega
        · right
          rcases hleft with hs | hf
          · omega
          · rw [hat (s - 1), if_neg (by omega), if_neg (by omega)] at hf
            have harith : s - 1 - k - 1 = s - k - 1 - 1 := by omega
            rwa [harith] at hf
      · rcases hright with h1 | hf
        · left
          omega
        · right
          rw [hat (e + 1), if_neg (by omega), if_neg (by omega)] at hf
          have harith : e + 1 - k - 1 = e - k - 1 + 1 := by omega
          rwa [harith] at hf
  · rintro (⟨hk1, rfl, rfl⟩ | ⟨a, b, ⟨hab, hbl, helem, hleft, hright⟩, rfl, rfl⟩)
    · refine ⟨by omega, by omega, ?_, Or.inl rfl, Or.inr ?_⟩
      · intro j h1 h2
        rw [hat j, if_pos (by omega)]
      · rw [hat (k - 1 + 1), if_neg (by omega), if_pos (by omega)]
    · refine ⟨by omega, by omega, ?_, ?_, ?_⟩
      · intro j h1 h2
        rw [hat j, if_neg (by omega), if_neg (by omega)]
        have harith : j - k - 1 = j - (k + 1) := by omega
        rw [harith]
        exact helem (j - (k + 1)) (by omega) (by omega)
      · right
        by_cases ha0 : a = 0
        · subst ha0
          rw [hat (k + 1 + 0 - 1), if_neg (by omega), if_pos (by omega)]
        · rcases hleft with h0 | hf
          · exact absurd h0 ha0
          · rw [hat (k + 1 + a - 1), if_neg (by omega), if_neg (by omega)]
            have harith : k + 1 + a - 1 - k - 1 = a - 1 := by omega
            rwa [harith]
      · rcases hright with h1 | hf
        · left
          omega
        · right
          rw [hat (k + 1 + b + 1), if_neg (by omega), if_neg (by omega)]
          have harith : k + 1 + b + 1 - k - 1 = b + 1 := by omega
          rwa [harith]

theorem runs_go_nil_none (i : ℕ) : runs_go [] i none = [] := rfl

theorem runs_go_nil_some (i c : ℕ) : runs_go [] i (some c) = [(c, i - 1)] := rfl

theorem runs_go_cons_true_none (l : List Bool) (i : ℕ) :
    runs_go (true :: l) i none = runs_go l (i + 1) (some i) := rfl

theorem runs_go_cons_false_none (l : List Bool) (i : ℕ) :
    runs_go (false :: l) i none = runs_go l (i + 1) none := rfl

theorem runs_go_cons_true_some (l : List Bool) (i c : ℕ) :
    runs_go (true :: l) i (some c) = runs_go l (i + 1) (some c) := rfl

theorem runs_go_cons_false_some (l : List Bool) (i c : ℕ) :
    runs_go (false :: l) i (some c) = (c, i - 1) :: runs_go l (i + 1) none := rfl

theorem replicate_true_shift (n : ℕ) (l : List Bool) :
    List.replicate n true ++ (true :: l) = List.replicate (n + 1) true ++ l := by
  rw [List.replicate_succ', List.append_assoc, List.singleton_append]

theorem runs_go_spec (l : List Bool) : ∀ (i s e : ℕ),
    ((s, e) ∈ runs_go l i none ↔ ∃ a b, maxRun l a b ∧ s = i + a ∧ e = i + b) ∧
    (∀ c, c < i → ((s, e) ∈ runs_go l i (some c) ↔
      ∃ a b, maxRun (List.replicate (i - c) true ++ l) a b ∧ s = c + a ∧ e = c + b)) := by
  induction l with
  | nil =>
    intro i s e
    constructor
    · rw [runs_go_nil_none]
      constructor
      · intro h
        exact absurd h (List.not_mem_nil _)
      · rintro ⟨a, b, hmr, _, _⟩
        have := hmr.2.1
        simp at this
    · intro c hc
      rw [runs_go_nil_some, List.mem_singleton, Prod.mk.injEq]
      constructor
      · rintro ⟨hs, he⟩
        refine ⟨0, i - c - 1, ?_, by omega, by omega⟩
        rw [List.append_nil, maxRun_replicate]
        exact ⟨by omega, rfl, rfl⟩
      · rintro ⟨a, b, hmr, rfl, rfl⟩
        rw [List.append_nil, maxRun_replicate] at hmr
        obtain ⟨hk1, rfl, rfl⟩ := hmr
        constructor <;> omega
  | cons b l ih =>
    intro i s e
    constructor
    · cases b with
      | true =>
        rw [runs_go_cons_true_none, ((ih (i + 1) s e).2 i (by omega))]
        have h1 : i + 1 - i = 1 := by omega
        rw [h1, List.replicate_one, List.singleton_append]
      | false =>
        rw [runs_go_cons_false_none, (ih (i + 1) s e).1]
        have h0 : false :: l = List.replicate 0 true ++ (false :: l) := by simp
        constructor
        · rintro ⟨a, b, hmr, rfl, rfl⟩
          refine ⟨a + 1, b + 1, ?_, by omega, by omega⟩
          rw [h0, maxRun_block]
          right
          exact ⟨a, b, hmr, by omega, by omega⟩
        · rintro ⟨a, b, hmr, rfl, rfl⟩
          rw [h0, maxRun_block] at hmr
          rcases hmr with ⟨h1, _, _⟩ | ⟨a', b', hmr', rfl, rfl⟩
          · omega
          · exact ⟨a', b', hmr', by omega, by omega⟩
    · intro c hc
      cases b with
      | true =>
        rw [runs_go_cons_true_some, ((ih (i + 1) s e).2 c (by omega))]
        rw [show i + 1 - c = (i - c) + 1 by omega, ← replicate_true_shift]
      | false =>
        rw [runs_go_cons_false_some, List.mem_cons, (ih (i + 1) s e).1, Prod.mk.injEq]
        constructor
        · rintro (⟨hs, he⟩ | ⟨a, b, hmr, rfl, rfl⟩)
          · refine ⟨0, i - c - 1, ?_, by omega, by omega⟩
            rw [maxRun_block]
            left
            exact ⟨by omega, rfl, rfl⟩
          · refine ⟨(i - c) + 1 + a, (i - c) + 1 + b, ?_, by omega, by omega⟩
            rw [maxRun_block]
            right
            exact ⟨a, b, hmr, rfl, rfl⟩
        · rintro ⟨a, b, hmr, rfl, rfl⟩
          rw [maxRun_block] at hmr
          rcases hmr with ⟨hk1, rfl, rfl⟩ | ⟨a', b', hmr', rfl, rfl⟩
          · left
            constructor <;> omega
          · right
            exact ⟨a', b', hmr', by omega, by omega⟩

theorem find_go_nil_none (i : ℕ) : find_segments_go [] i none = [] := rfl

theorem find_go_nil_some (i c : ℕ) :
    find_segments_go [] i (some c) = if 3 ≤ i - c then [(c, i - 1)] else [] := rfl

theorem find_go_cons_true_none (l : List Bool) (i : ℕ) :
    find_segments_go (true :: l) i none = find_segments_go l (i + 1) (some i) := rfl

theorem find_go_cons_false_none (l : List Bool) (i : ℕ) :
    find_segments_go (false :: l) i none = find_segments_go l (i + 1) none := rfl

theorem find_go_cons_true_some (l : List Bool) (i c : ℕ) :
    find_segments_go (true :: l) i (some c) = find_segments_go l (i + 1) (some c) := rfl

theorem find_go_cons_false_some (l : List Bool) (i c : ℕ) :
    find_segments_go (false :: l) i (some c) =
      (if 3 ≤ i - c then [(c, i - 1)] else []) ++ find_segments_go l (i + 1) none := rfl

theorem find_segments_filter (l : List Bool) : ∀ (i : ℕ) (st : Option ℕ),
    find_segments_go l i st =
      (runs_go l i st).filter (fun se => decide (3 ≤ se.2 + 1 - se.1)) := by
  induction l with
  | nil =>
    intro i st
    cases st with
    | none => rfl
    | some c =>
      rw [find_go_nil_some, runs_go_nil_some]
      by_cases h : 3 ≤ i - c
      · rw [if_pos h]
        have h2 : 3 ≤ (i - 1) + 1 - c := by omega
        simp [h2]
      · rw [if_neg h]
        have h2 : ¬ (3 ≤ (i - 1) + 1 - c) := by omega
        simp [h2]
  | cons b l ih =>
    intro i st
    cases st with
    | none =>
      cases b with
      | true => rw [find_go_cons_true_none, runs_go_cons_true_none, ih]
      | false => rw [find_go_cons_false_none, runs_go_cons_false_none, ih]
    | some c =>
      cases b with
      | true => rw [find_go_cons_true_some, runs_go_cons_true_some, ih]
      | false =>
        rw [find_go_cons_false_some, runs_go_cons_false_some, ih, List.filter_cons]
        by_cases h : 3 ≤ i - c
        · rw [if_pos h, if_pos (by simp; omega)]
          rfl
        · rw [if_neg h, if_neg (by simp; omega)]
          rfl

/-- Membership characterization of find_airborne_segments: exactly the
maximal airborne runs of length at least 3. -/
theorem find_airborne_spec (frames : List PoseFrame) (s e : ℕ) :
    (s, e) ∈ find_airborne_segments frames ↔
      maxRun (frames.map (·.is_airborne)) s e ∧ 3 ≤ e + 1 - s := by
  unfold find_airborne_segments
  rw [find_segments_filter, List.mem_filter,
    ((runs_go_spec (frames.map (·.is_airborne)) 0 s e).1)]
  constructor
  · rintro ⟨⟨a, b, hmr, rfl, rfl⟩, hlen⟩
    rw [Nat.zero_add, Nat.zero_add]
    rw [Nat.zero_add, Nat.zero_add] at hlen
    exact ⟨hmr, by simpa using hlen⟩
  · rintro ⟨hmr, hlen⟩
    exact ⟨⟨s, e, hmr, by omega, by omega⟩, by simpa using hlen⟩

/-- Claim C5: a maximal contiguous airborne run is emitted as a candidate
segment iff it spans at least 3 frames (runs at the end of the sequence
included under the same rule). -/
theorem claim_c5_min_duration (frames : List PoseFrame) (s e : ℕ)
    (h : maxRun (frames.map (·.is_airborne)) s e) :
    ((s, e) ∈ find_airborne_segments frames ↔ 3 ≤ e + 1 - s) := by
  rw [find_airborne_spec]
  constructor
  · rintro ⟨_, h3⟩
    exact h3
  · intro h3
    exact ⟨h, h3⟩

/-- Witness for claim C5 on a concrete 5-frame sequence with airborne
pattern false, true, true, true, false: the length-3 run at frames 1..3
is retained. -/
theorem claim_c5_witness :
    maxRun (ex_run_frames.map (·.is_airborne)) 1 3 ∧
    ((1, 3) ∈ find_airborne_segments ex_run_frames ↔ 3 ≤ 3 + 1 - 1) := by
  have hmap : ex_run_frames.map (·.is_airborne) = [false, true, true, true, false] := by
    simp [ex_run_frames, simple_frame]
  have hmr : maxRun (ex_run_frames.map (·.is_airborne)) 1 3 := by
    rw [hmap]
    refine ⟨by omega, by simp, ?_, ?_, ?_⟩
    · intro j h1 h2
      interval_cases j <;> rfl
    · right
      rfl
    · right
      rfl
  exact ⟨hmr, claim_c5_min_duration ex_run_frames 1 3 hmr⟩

theorem pyround2_point6 : pyround2 0.6 = 0.6 := by
  unfold pyround2
  have h : roundHalfEven (0.6 * 100) = (60 : ℤ) :=
    roundHalfEven_low (by norm_num) (by norm_num)
  rw [h]
  norm_num

/-- Claim C1: whenever an airborne candidate segment contains a grab
frame, the classifier emits the grab_indy prediction with confidence 0.6
for that segment and the prediction reaches the detect_tricks output;
the statement has no rotation hypothesis, so the grab branch wins over
every rotation rule. -/
theorem claim_c1_grab_precedence (frames : List PoseFrame) (s e : ℕ)
    (hseg : (s, e) ∈ find_airborne_segments frames)
    (hgrab : has_grab ((frames.drop s).take (e + 1 - s))) :
    ∃ p, classify_airborne_trick ((frames.drop s).take (e + 1 - s)) s e = some p ∧
      p.trick_type = "grab_indy" ∧ p.confidence = 0.6 ∧ p ∈ detect_tricks frames := by
  have hmr := (find_airborne_spec frames s e).mp hseg
  have hse : s ≤ e := hmr.1.1
  have hlen : e < frames.length := by
    have := hmr.1.2.1
    rwa [List.length_map] at this
  have hwne : (frames.drop s).take (e + 1 - s) ≠ [] := by
    rw [← List.length_pos, List.length_take, List.length_drop]
    omega
  obtain ⟨first, rest, hwe⟩ := List.exists_cons_of_ne_nil hwne
  have hgrab2 : has_grab (first :: rest) := by rwa [hwe] at hgrab
  have hcl : classify_airborne_trick ((frames.drop s).take (e + 1 - s)) s e =
      some { trick_type := "grab_indy", confidence := pyround2 0.6
             start_frame := first.frame_idx
             end_frame := ((first :: rest).getLast (List.cons_ne_nil _ _)).frame_idx
             start_time_ms := first.timestamp_ms
             end_time_ms := ((first :: rest).getLast (List.cons_ne_nil _ _)).timestamp_ms } := by
    rw [hwe]
    simp only [classify_airborne_trick]
    rw [if_pos hgrab2]
    rfl
  refine ⟨_, hcl, rfl, pyround2_point6, ?_⟩
  have hfne : frames ≠ [] := by
    intro hnil
    rw [hnil] at hlen
    simp at hlen
  obtain ⟨f0, fr, rfl⟩ := List.exists_cons_of_ne_nil hfne
  have hdt : detect_tricks (f0 :: fr) =
      sortByStart (airborne_tricks (f0 :: fr) ++ detect_ground_tricks (f0 :: fr)) := rfl
  rw [hdt, mem_sortByStart]
  apply List.mem_append_left
  unfold airborne_tricks
  rw [List.mem_filterMap]
  exact ⟨(s, e), hseg, hcl⟩

theorem atan2_zero_of_nonneg {x : ℝ} (hx : 0 ≤ x) : atan2 0 x = 0 := by
  unfold atan2
  norm_num
  exact Complex.arg_ofReal_of_nonneg hx

theorem atan2_zero_of_neg {x : ℝ} (hx : x < 0) : atan2 0 x = Real.pi := by
  unfold atan2
  norm_num
  exact Complex.arg_ofReal_of_neg hx

theorem atan2_cos_sin {r t : ℝ} (hr : 0 < r) (h1 : -Real.pi < t) (h2 : t ≤ Real.pi) :
    atan2 (r * Real.sin t) (r * Real.cos t) = t := by
  unfold atan2
  have hfac : ((r * Real.cos t : ℝ) : ℂ) + ((r * Real.sin t : ℝ) : ℂ) * Complex.I =
      (r : ℂ) * ((Real.cos t : ℝ) + (Real.sin t : ℝ) * Complex.I) := by
    push_cast
    ring
  rw [hfac, Complex.arg_real_mul _ hr, Complex.ofReal_cos, Complex.ofReal_sin,
    Complex.arg_cos_add_sin_mul_I ⟨h1, h2⟩]

theorem degrees_zero : degrees 0 = 0 := by
  unfold degrees
  ring

theorem degrees_pi : degrees Real.pi = 180 := by
  unfold degrees
  field_simp

/-- Witness for claim C1 at a concrete 3-frame airborne segment with the
hands on the foot midpoint in every frame and a shoulder-line rotation of
180 degrees: the grab branch wins although total_rotation exceeds 150. -/
theorem claim_c1_witness :
    (0, 2) ∈ find_airborne_segments ex_grab_frames ∧
    has_grab ((ex_grab_frames.drop 0).take (2 + 1 - 0)) ∧
    150 < total_rotation ((ex_grab_frames.drop 0).take (2 + 1 - 0)) ∧
    ∃ p, classify_airborne_trick ((ex_grab_frames.drop 0).take (2 + 1 - 0)) 0 2 = some p ∧
      p.trick_type = "grab_indy" ∧ p.confidence = 0.6 ∧ p ∈ detect_tricks ex_grab_frames := by
  have hmap : ex_grab_frames.map (·.is_airborne) = [true, true, true] := by
    simp [ex_grab_frames, air_frame]
  have hseg : (0, 2) ∈ find_airborne_segments ex_grab_frames := by
    unfold find_airborne_segments
    rw [hmap, find_go_cons_true_none, find_go_cons_true_some, find_go_cons_true_some,
      find_go_nil_some, if_pos (by norm_num)]
    simp
  have hslice : (ex_grab_frames.drop 0).take (2 + 1 - 0) = ex_grab_frames := by
    simp [ex_grab_frames]
  have h19a : lms_grab_a 19 = ⟨1 / 2, 1 / 2, 0, 0⟩ := by
    unfold lms_grab_a
    rw [if_neg (by decide)]
  have h31a : lms_grab_a 31 = ⟨1 / 2, 1 / 2, 0, 0⟩ := by
    unfold lms_grab_a
    rw [if_neg (by decide)]
  have h32a : lms_grab_a 32 = ⟨1 / 2, 1 / 2, 0, 0⟩ := by
    unfold lms_grab_a
    rw [if_neg (by decide)]
  have hfd : foot_center_dist (air_frame 0 lms_grab_a) 19 = 0 := by
    unfold foot_center_dist air_frame
    dsimp only
    rw [h19a, h31a, h32a]
    dsimp only
    norm_num
  have hgrab : has_grab ex_grab_frames := by
    refine ⟨air_frame 0 lms_grab_a, by simp [ex_grab_frames], Or.inl ?_⟩
    rw [hfd]
    norm_num
  have ha11 : lms_grab_a 11 = ⟨4 / 10, 5 / 10, 0, 0⟩ := by
    unfold lms_grab_a
    rw [if_pos rfl]
  have ha12 : lms_grab_a 12 = ⟨1 / 2, 1 / 2, 0, 0⟩ := by
    unfold lms_grab_a
    rw [if_neg (by decide)]
  have hb11 : lms_grab_b 11 = ⟨6 / 10, 5 / 10, 0, 0⟩ := by
    unfold lms_grab_b
    rw [if_pos rfl]
  have hb12 : lms_grab_b 12 = ⟨1 / 2, 1 / 2, 0, 0⟩ := by
    unfold lms_grab_b
    rw [if_neg (by decide)]
  have hsa : shoulder_angle (air_frame 0 lms_grab_a) = 0 := by
    unfold shoulder_angle air_frame
    dsimp only
    rw [ha12, ha11]
    dsimp only
    rw [show (1 : ℝ) / 2 - 5 / 10 = 0 by norm_num,
      show (1 : ℝ) / 2 - 4 / 10 = 1 / 10 by norm_num,
      atan2_zero_of_nonneg (by norm_num), degrees_zero]
  have hsb : shoulder_angle (air_frame 2 lms_grab_b) = 180 := by
    unfold shoulder_angle air_frame
    dsimp only
    rw [hb12, hb11]
    dsimp only
    rw [show (1 : ℝ) / 2 - 5 / 10 = 0 by norm_num,
      show (1 : ℝ) / 2 - 6 / 10 = -(1 / 10) by norm_num,
      atan2_zero_of_neg (by norm_num), degrees_pi]
  have htr : total_rotation ex_grab_frames = 180 := by
    have heq : total_rotation ex_grab_frames =
        |shoulder_angle (air_frame 2 lms_grab_b) - shoulder_angle (air_frame 0 lms_grab_a)| := rfl
    rw [heq, hsb, hsa]
    norm_num
  refine ⟨hseg, by rw [hslice]; exact hgrab, by rw [hslice, htr]; norm_num,
    claim_c1_grab_precedence ex_grab_frames 0 2 hseg (by rw [hslice]; exact hgrab)⟩

/-- Claim C3 (amended): total_rotation is the absolute difference of the
last and first shoulder angles (0 below 2 frames) and, with no grab, the
rotation branches emit confidence round(0.5 + min(0.4, tr/500), 2) for
jump_360 and round(0.6 + min(0.3, tr/300), 2) for jump_180 — the code
rounds the confidence to 2 decimals before emitting it. -/
theorem claim_c3_rotation_amended (segment : List PoseFrame) (h : segment ≠ [])
    (hg : ¬ has_grab segment) (si ei : ℕ) :
    (total_rotation segment = if segment.length < 2 then 0
      else |shoulder_angle (segment.getLast h) - shoulder_angle (segment.head h)|) ∧
    (150 < total_rotation segment →
      classify_airborne_trick segment si ei =
        some { trick_type := "jump_360"
               confidence := pyround2 (0.5 + min 0.4 (total_rotation segment / 500))
               start_frame := (segment.head h).frame_idx
               end_frame := (segment.getLast h).frame_idx
               start_time_ms := (segment.head h).timestamp_ms
               end_time_ms := (segment.getLast h).timestamp_ms }) ∧
    (80 < total_rotation segment → total_rotation segment ≤ 150 →
      classify_airborne_trick segment si ei =
        some { trick_type := "jump_180"
               confidence := pyround2 (0.6 + min 0.3 (total_rotation segment / 300))
               start_frame := (segment.head h).frame_idx
               end_frame := (segment.getLast h).frame_idx
               start_time_ms := (segment.head h).timestamp_ms
               end_time_ms := (segment.getLast h).timestamp_ms }) := by
  obtain ⟨first, rest, rfl⟩ := List.exists_cons_of_ne_nil h
  refine ⟨?_, ?_, ?_⟩
  · match rest with
    | [] =>
      rw [if_pos (by simp)]
      rfl
    | second :: r =>
      rw [if_neg (by simp)]
      rfl
  · intro htr
    simp only [classify_airborne_trick]
    rw [if_neg hg, if_pos htr]
    rfl
  · intro h80 hle
    simp only [classify_airborne_trick]
    rw [if_neg hg, if_neg (not_lt.mpr hle), if_pos h80]
    rfl

theorem ex_rot_no_grab : ¬ has_grab ex_rot_segment := by
  have h19a : lms_rot_a 19 = ⟨9 / 10, 9 / 10, 0, 0⟩ := by
    unfold lms_rot_a
    rw [if_neg (by decide), if_neg (by decide), if_pos (by decide)]
  have h20a : lms_rot_a 20 = ⟨9 / 10, 9 / 10, 0, 0⟩ := by
    unfold lms_rot_a
    rw [if_neg (by decide), if_neg (by decide), if_pos (by decide)]
  have h31a : lms_rot_a 31 = ⟨0, 0, 0, 0⟩ := by
    unfold lms_rot_a
    rw [if_neg (by decide), if_neg (by decide), if_neg (by decide)]
  have h32a : lms_rot_a 32 = ⟨0, 0, 0, 0⟩ := by
    unfold lms_rot_a
    rw [if_neg (by decide), if_neg (by decide), if_neg (by decide)]
  have h19b : lms_rot_b 19 = ⟨9 / 10, 9 / 10, 0, 0⟩ := by
    unfold lms_rot_b
    rw [if_neg (by decide), if_neg (by decide), if_pos (by decide)]
  have h20b : lms_rot_b 20 = ⟨9 / 10, 9 / 10, 0, 0⟩ := by
    unfold lms_rot_b
    rw [if_neg (by decide), if_neg (by decide), if_pos (by decide)]
  have h31b : lms_rot_b 31 = ⟨0, 0, 0, 0⟩ := by
    unfold lms_rot_b
    rw [if_neg (by decide), if_neg (by decide), if_neg (by decide)]
  have h32b : lms_rot_b 32 = ⟨0, 0, 0, 0⟩ := by
    unfold lms_rot_b
    rw [if_neg (by decide), if_neg (by decide), if_neg (by decide)]
  have hge : ∀ (idx : ℕ) (lms : Fin 33 → Landmark) (hand : Fin 33),
      lms hand = ⟨9 / 10, 9 / 10, 0, 0⟩ → lms 31 = ⟨0, 0, 0, 0⟩ → lms 32 = ⟨0, 0, 0, 0⟩ →
      ¬ (foot_center_dist (air_frame idx lms) hand < 0.1) := by
    intro idx lms hand hh h31 h32
    unfold foot_center_dist air_frame
    dsimp only
    rw [hh, h31, h32]
    dsimp only
    rw [not_lt]
    have hsq : ((9 : ℝ) / 10 - (0 + 0) / 2) ^ 2 + ((9 : ℝ) / 10 - (0 + 0) / 2) ^ 2 =
        162 / 100 := by norm_num
    rw [hsq]
    rw [show (0.1 : ℝ) = 1 / 10 by norm_num]
    have h1 : (1 / 10 : ℝ) = Real.sqrt (1 / 100) := by
      rw [show (1 / 100 : ℝ) = (1 / 10) ^ 2 by norm_num, Real.sqrt_sq (by norm_num)]
    rw [h1]
    exact Real.sqrt_le_sqrt (by norm_num)
  rintro ⟨pf, hpf, hor⟩
  simp only [ex_rot_segment, List.mem_cons, List.not_mem_nil, or_false] at hpf
  rcases hpf with rfl | rfl
  · rcases hor with hd | hd
    · exact hge 5 lms_rot_a 19 h19a h31a h32a hd
    · exact hge 5 lms_rot_a 20 h20a h31a h32a hd
  · rcases hor with hd | hd
    · exact hge 6 lms_rot_b 19 h19b h31b h32b hd
    · exact hge 6 lms_rot_b 20 h20b h31b h32b hd

theorem ex_rot_total : total_rotation ex_rot_segment = 763 / 5 := by
  have hpi := Real.pi_pos
  have ha11 : lms_rot_a 11 = ⟨1 / 2, 1 / 2, 0, 0⟩ := by
    unfold lms_rot_a
    rw [if_pos rfl]
  have ha12 : lms_rot_a 12 = ⟨6 / 10, 1 / 2, 0, 0⟩ := by
    unfold lms_rot_a
    rw [if_neg (by decide), if_pos rfl]
  have hb11 : lms_rot_b 11 = ⟨1 / 2, 1 / 2, 0, 0⟩ := by
    unfold lms_rot_b
    rw [if_pos rfl]
  have hb12 : lms_rot_b 12 =
      ⟨1 / 2 + Real.cos theta_c / 10, 1 / 2 + Real.sin theta_c / 10, 0, 0⟩ := by
    unfold lms_rot_b
    rw [if_neg (by decide), if_pos rfl]
  have hsa : shoulder_angle (air_frame 5 lms_rot_a) = 0 := by
    unfold shoulder_angle air_frame
    dsimp only
    rw [ha12, ha11]
    dsimp only
    rw [show (1 : ℝ) / 2 - 1 / 2 = 0 by norm_num,
      show (6 : ℝ) / 10 - 1 / 2 = 1 / 10 by norm_num,
      atan2_zero_of_nonneg (by norm_num), degrees_zero]
  have hsb : shoulder_angle (air_frame 6 lms_rot_b) = 763 / 5 := by
    unfold shoulder_angle air_frame
    dsimp only
    rw [hb12, hb11]
    dsimp only
    rw [show (1 : ℝ) / 2 + Real.sin theta_c / 10 - 1 / 2 = (1 / 10) * Real.sin theta_c by ring,
      show (1 : ℝ) / 2 + Real.cos theta_c / 10 - 1 / 2 = (1 / 10) * Real.cos theta_c by ring]
    rw [atan2_cos_sin (by norm_num) (by unfold theta_c; nlinarith) (by unfold theta_c; nlinarith)]
    unfold degrees theta_c
    field_simp
    ring
  have heq : total_rotation ex_rot_segment =
      |shoulder_angle (air_frame 6 lms_rot_b) - shoulder_angle (air_frame 5 lms_rot_a)| := rfl
  rw [heq, hsa, hsb]
  rw [sub_zero, abs_of_nonneg (by norm_num)]

/-- Claim C3 counterexample: a two-frame no-grab segment whose total
rotation is exactly 152.6 degrees is classified jump_360, but the emitted
confidence is the 2-decimal rounding 0.81, not the exact value
0.5 + min(0.4, 152.6/500) = 0.8052 the claim asserts. -/
theorem claim_c3_counterexample :
    ∃ p, classify_airborne_trick ex_rot_segment 0 1 = some p ∧
      p.trick_type = "jump_360" ∧ 150 < total_rotation ex_rot_segment ∧
      p.confidence ≠ 0.5 + min 0.4 (total_rotation ex_rot_segment / 500) := by
  have htr150 : (150 : ℝ) < total_rotation ex_rot_segment := by
    rw [ex_rot_total]
    norm_num
  have hcl : classify_airborne_trick ex_rot_segment 0 1 =
      some { trick_type := "jump_360"
             confidence := pyround2 (0.5 + min 0.4 (total_rotation ex_rot_segment / 500))
             start_frame := (air_frame 5 lms_rot_a).frame_idx
             end_frame := (air_frame 6 lms_rot_b).frame_idx
             start_time_ms := (air_frame 5 lms_rot_a).timestamp_ms
             end_time_ms := (air_frame 6 lms_rot_b).timestamp_ms } := by
    have hexp : ex_rot_segment = air_frame 5 lms_rot_a :: [air_frame 6 lms_rot_b] := rfl
    rw [hexp]
    simp only [classify_airborne_trick]
    rw [if_neg (show ¬ has_grab (air_frame 5 lms_rot_a :: [air_frame 6 lms_rot_b]) from
      ex_rot_no_grab)]
    rw [if_pos (show (150 : ℝ) <
      total_rotation (air_frame 5 lms_rot_a :: [air_frame 6 lms_rot_b]) from htr150)]
    rfl
  refine ⟨_, hcl, rfl, htr150, ?_⟩
  show pyround2 (0.5 + min 0.4 (total_rotation ex_rot_segment / 500)) ≠ _
  rw [ex_rot_total]
  have hmin : min (0.4 : ℝ) (763 / 5 / 500) = 763 / 5 / 500 :=
    min_eq_right (by norm_num)
  rw [hmin]
  have hval : (0.5 : ℝ) + 763 / 5 / 500 = 2013 / 2500 := by norm_num
  rw [hval]
  have hr : pyround2 (2013 / 2500) = 81 / 100 := by
    unfold pyround2
    have h2 : ((2013 / 2500 : ℝ) * 100) = 2013 / 25 := by norm_num
    rw [h2]
    have h3 : roundHalfEven ((2013 : ℝ) / 25) = (80 : ℤ) + 1 :=
      roundHalfEven_high (by norm_num) (by norm_num)
    rw [h3]
    norm_num
  rw [hr]
  norm_num

/-- Witness for the amended claim C3 at the concrete 152.6-degree
segment. -/
theorem claim_c3_witness :
    ex_rot_segment ≠ [] ∧ ¬ has_grab ex_rot_segment ∧
    150 < total_rotation ex_rot_segment ∧
    ∃ p, classify_airborne_trick ex_rot_segment 0 1 = some p ∧
      p.trick_type = "jump_360" ∧
      p.confidence = pyround2 (0.5 + min 0.4 (total_rotation ex_rot_segment / 500)) := by
  have hne : ex_rot_segment ≠ [] := by simp [ex_rot_segment]
  have htr150 : (150 : ℝ) < total_rotation ex_rot_segment := by
    rw [ex_rot_total]
    norm_num
  have happ := (claim_c3_rotation_amended ex_rot_segment hne ex_rot_no_grab 0 1).2.1 htr150
  exact ⟨hne, ex_rot_no_grab, htr150, _, happ, rfl, rfl⟩

theorem clamp100_of_nonneg {x : ℝ} (hx : 0 ≤ x) : clamp100 x = min 100 x := by
  unfold clamp100
  rw [max_eq_right]
  exact le_min (by norm_num) hx

theorem mean_list_nonneg {xs : List ℝ} (h : ∀ x ∈ xs, 0 ≤ x) : 0 ≤ mean_list xs :=
  div_nonneg (List.sum_nonneg h) (Nat.cast_nonneg _)

/-- Claim C6: for non-empty input with the data-model knee-angle
invariant (knee angles are non-negative), the overall score is exactly
round(stability * 0.4 + difficulty * 0.3 + clamp(0,100, avg_knee/1.8) * 0.3, 1)
with stability and difficulty as the specification words them. -/
theorem claim_c6_overall_score (frames : List PoseFrame) (h : frames ≠ [])
    (hk : ∀ pf ∈ frames, 0 ≤ pf.knee_angle_left ∧ 0 ≤ pf.knee_angle_right) :
    (analyze_posture frames).overall_score =
      pyround1 (stability_spec frames * 0.4 + difficulty_spec frames * 0.3 +
        clamp100 (avg_knee frames / 1.8) * 0.3) := by
  obtain ⟨pf0, pfs, rfl⟩ := List.exists_cons_of_ne_nil h
  have havg : 0 ≤ avg_knee (pf0 :: pfs) := by
    unfold avg_knee
    have h1 : 0 ≤ mean_list ((pf0 :: pfs).map (·.knee_angle_left)) := by
      apply mean_list_nonneg
      intro x hx
      rw [List.mem_map] at hx
      obtain ⟨pf, hpf, rfl⟩ := hx
      exact (hk pf hpf).1
    have h2 : 0 ≤ mean_list ((pf0 :: pfs).map (·.knee_angle_right)) := by
      apply mean_list_nonneg
      intro x hx
      rw [List.mem_map] at hx
      obtain ⟨pf, hpf, rfl⟩ := hx
      exact (hk pf hpf).2
    linarith
  have hfrac : 0 ≤ airborne_frac (pf0 :: pfs) :=
    div_nonneg (Nat.cast_nonneg _) (Nat.cast_nonneg _)
  have hbstd : 0 ≤ board_std (pf0 :: pfs) := Real.sqrt_nonneg _
  have hdiffpos : 0 ≤ airborne_frac (pf0 :: pfs) * 200 + board_std (pf0 :: pfs) * 2 := by
    have := mul_nonneg hfrac (by norm_num : (0 : ℝ) ≤ 200)
    have := mul_nonneg hbstd (by norm_num : (0 : ℝ) ≤ 2)
    linarith
  have hdiff : difficulty_spec (pf0 :: pfs) =
      min 100 (airborne_frac (pf0 :: pfs) * 200 + board_std (pf0 :: pfs) * 2) :=
    clamp100_of_nonneg hdiffpos
  have hknee : clamp100 (avg_knee (pf0 :: pfs) / 1.8) =
      min 100 (avg_knee (pf0 :: pfs) / 1.8) :=
    clamp100_of_nonneg (div_nonneg havg (by norm_num))
  rw [hdiff, hknee]
  simp only [analyze_posture]
  congr 1

/-- Witness for claim C6 at a concrete one-frame input. -/
theorem claim_c6_witness :
    [simple_frame 0 0 false] ≠ [] ∧
    (∀ pf ∈ [simple_frame 0 0 false],
      0 ≤ pf.knee_angle_left ∧ 0 ≤ pf.knee_angle_right) ∧
    (analyze_posture [simple_frame 0 0 false]).overall_score =
      pyround1 (stability_spec [simple_frame 0 0 false] * 0.4 +
        difficulty_spec [simple_frame 0 0 false] * 0.3 +
        clamp100 (avg_knee [simple_frame 0 0 false] / 1.8) * 0.3) := by
  have h1 : [simple_frame 0 0 false] ≠ [] := by simp
  have h2 : ∀ pf ∈ [simple_frame 0 0 false],
      0 ≤ pf.knee_angle_left ∧ 0 ≤ pf.knee_angle_right := by
    intro pf hpf
    simp only [List.mem_singleton] at hpf
    subst hpf
    constructor <;> norm_num [simple_frame]
  exact ⟨h1, h2, claim_c6_overall_score _ h1 h2⟩

/-- Claim C10: for non-empty input the feedback list is exactly a summary
line (one of three), then exactly one knee-advice line (one of three),
then the edge-control line iff the absolute-board-angle standard
deviation exceeds 15; so its length is 3 in that case and 2 otherwise. -/
theorem claim_c10_feedback (frames : List PoseFrame) (h : frames ≠ []) :
    ∃ s k, s ∈ [msg_overall_high, msg_overall_mid, msg_overall_low] ∧
      k ∈ [msg_knee_high, msg_knee_low, msg_knee_ok] ∧
      (analyze_posture frames).feedback =
        s :: k :: (if 15 < board_std frames then [msg_edge] else []) ∧
      (analyze_posture frames).feedback.length =
        (if 15 < board_std frames then 3 else 2) := by
  obtain ⟨pf0, pfs, rfl⟩ := List.exists_cons_of_ne_nil h
  have hshape : ∃ s k, s ∈ [msg_overall_high, msg_overall_mid, msg_overall_low] ∧
      k ∈ [msg_knee_high, msg_knee_low, msg_knee_ok] ∧
      (analyze_posture (pf0 :: pfs)).feedback =
        s :: k :: (if 15 < board_std (pf0 :: pfs) then [msg_edge] else []) := by
    refine ⟨_, _, ?_, ?_, rfl⟩
    · split_ifs <;> simp
    · split_ifs <;> simp
  obtain ⟨s, k, hs, hkm, hfb⟩ := hshape
  refine ⟨s, k, hs, hkm, hfb, ?_⟩
  rw [hfb]
  by_cases hb : 15 < board_std (pf0 :: pfs)
  · rw [if_pos hb, if_pos hb]
    rfl
  · rw [if_neg hb, if_neg hb]
    rfl

/-- Witness for claim C10 at a concrete one-frame input. -/
theorem claim_c10_witness :
    [simple_frame 0 0 false] ≠ [] ∧
    (∃ s k, s ∈ [msg_overall_high, msg_overall_mid, msg_overall_low] ∧
      k ∈ [msg_knee_high, msg_knee_low, msg_knee_ok] ∧
      (analyze_posture [simple_frame 0 0 false]).feedback =
        s :: k :: (if 15 < board_std [simple_frame 0 0 false] then [msg_edge] else []) ∧
      (analyze_posture [simple_frame 0 0 false]).feedback.length =
        (if 15 < board_std [simple_frame 0 0 false] then 3 else 2)) := by
  have h1 : [simple_frame 0 0 false] ≠ [] := by simp
  exact ⟨h1, claim_c10_feedback _ h1⟩

end Reride
